import Mathlib

/-!
Verification of the `@proventuslabs/nestjs-multipart-form` streaming multipart
decoder and its operators, shallowly embedded in Lean.

The embedding follows the TypeScript sources:
- `multipart-fields.operators.ts` (pattern matching, associative parsing,
  field filtering and required-field validation),
- `multipart-files.operators.ts` (file filtering with auto-drain, required-file
  validation),
- `multipart.parser.ts` (the RxJS decoder `parseMultipartData`: fail path,
  bubble-errors gate, field/file event handling, teardown),
- `multipart-fields.decorator.ts` / files decorator factories,
- `nestjs/exception-filter.ts` (error to HTTP status mapping).

RxJS `Subject`s are modelled as event traces with a `stopped` flag (a stopped
subject ignores further `next`/`error`/`complete` calls, as in RxJS). Cold
finite streams are modelled as a list of items followed by a terminal event.
-/

namespace MultipartForm

/-- The error taxonomy of `multipart.errors.ts` / `core/errors.ts`, one
constructor per class; `base` is a plain `MultipartError` (used to wrap
initialization, busboy-processing and request-stream failures). Limits are
`Option Nat`, `none` standing for `Infinity` (unset limit). -/
inductive MError
  | base (msg : String)
  | partsLimit (limit : Option Nat)
  | filesLimit (limit : Option Nat)
  | fieldsLimit (limit : Option Nat)
  | truncatedFile (fieldname : String)
  | truncatedField (fieldname : String)
  | missingFiles (fieldnames : List String)
  | missingFields (fieldnames : List String)
  deriving DecidableEq, Repr

/-- JavaScript `String.prototype.startsWith`, computed on the character
list (extensionally `String.startsWith`, but kernel-reducible). -/
def strStartsWith (s : String) (pre : String) : Bool :=
  pre.data.isPrefixOf s.data

/-- JavaScript `String.prototype.slice(n)`, computed on the character list. -/
def strDrop (s : String) (n : Nat) : String :=
  String.mk (s.data.drop n)

/-- `parseFieldPattern` from `multipart-fields.operators.ts`: a pattern
starting with the marker `^` denotes a starts-with match on the rest. -/
def parseFieldPattern (pattern : String) : String × Bool :=
  if strStartsWith pattern "^" then (strDrop pattern 1, true)
  else (pattern, false)

/-- `matchesFieldPattern` from `multipart-fields.operators.ts`. -/
def matchesFieldPattern (fieldName : String) (pattern : String) : Bool :=
  let parsed := parseFieldPattern pattern
  if parsed.2 then strStartsWith fieldName parsed.1
  else fieldName == parsed.1

/-- Intermediate state of the `parseAssociations` character loop:
accumulated bracket-group contents, the basename captured at the first `[`,
the current character buffer, and whether the loop is inside a bracket.
Strings are kept as character lists. -/
structure AssocState where
  associations : List (List Char)
  basename : List Char
  buffer : List Char
  inBracket : Bool
  deriving DecidableEq, Repr

/-- One iteration of the `parseAssociations` loop; `none` is the
`return undefined` early exit (nested `[` or unmatched `]`). -/
def stepAssoc (s : AssocState) (c : Char) : Option AssocState :=
  if c = '[' then
    if s.inBracket then none
    else some { associations := s.associations,
                basename := if s.basename = [] then s.buffer else s.basename,
                buffer := [],
                inBracket := true }
  else if c = ']' then
    if s.inBracket then
      some { associations := s.associations ++ [s.buffer],
             basename := s.basename,
             buffer := [],
             inBracket := false }
    else none
  else
    some { s with buffer := s.buffer ++ [c] }

/-- `parseAssociations` on a character list (the loop body plus the
post-loop checks of `multipart-fields.operators.ts`). -/
def parseAssociationsL (cs : List Char) : Option (List Char × List (List Char)) :=
  if cs.length = 0 then none
  else
    match cs.foldlM stepAssoc ⟨[], [], [], false⟩ with
    | none => none
    | some s =>
      if s.inBracket then none
      else
        let basename := if s.basename = [] then s.buffer else s.basename
        if s.associations.length = 0 then none
        else some (basename, s.associations)

/-- `parseAssociations` from `multipart-fields.operators.ts`, on `String`. -/
def parseAssociations (fieldname : String) : Option (String × List String) :=
  (parseAssociationsL fieldname.data).map fun p => (String.mk p.1, p.2.map String.mk)

example : parseAssociations "a[b][c]" = some ("a", ["b", "c"]) := by decide
example : parseAssociations "a[]" = some ("a", [""]) := by decide
example : parseAssociations "plain" = none := by decide
example : parseAssociations "bad[" = none := by decide
example : parseAssociations "bad]" = none := by decide
example : parseAssociations "" = none := by decide
example : parseAssociations "a[[b]]" = none := by decide
example : matchesFieldPattern "user_name" "^user_" = true := by decide
example : matchesFieldPattern "user" "^user_" = false := by decide
example : matchesFieldPattern "name" "name" = true := by decide
example : matchesFieldPattern "Name" "name" = false := by decide

/-- A `MultipartField` value (`multipart.types.ts`); the optional associative
enrichment added by `associateFields` is carried in the last three fields. -/
structure MultipartField where
  name : String
  value : String
  mimetype : String
  encoding : String
  isAssociative : Bool := false
  basename : Option String := none
  associations : Option (List String) := none
  deriving DecidableEq, Repr

/-- A `MultipartFileStream` (`multipart.types.ts`): metadata attached to a
readable byte stream. `resumed` records whether `resume()` has been invoked
on its byte source (the flowing/auto-drain flag of the Node stream). -/
structure MultipartFileStream where
  fieldname : String
  filename : String
  encoding : String
  mimetype : String
  truncated : Bool := false
  resumed : Bool := false
  deriving DecidableEq, Repr

/-- `Readable.prototype.resume()`: switches the byte source into flowing
(consume-and-discard) mode. -/
def MultipartFileStream.resume (s : MultipartFileStream) : MultipartFileStream :=
  { s with resumed := true }

/-- Terminal event of a finite cold stream: completion or an error. -/
inductive Terminal
  | complete
  | error (e : MError)
  deriving DecidableEq, Repr

/-- A finite cold observable: the items it emits in order, then its
terminal event. -/
structure RxStream (α : Type) where
  items : List α
  terminal : Terminal
  deriving DecidableEq, Repr

/-- RxJS `EMPTY`: completes immediately without emitting. -/
def emptyStream {α : Type} : RxStream α := ⟨[], .complete⟩

/-- `filterFieldsByPatterns` from `multipart-fields.operators.ts`: keep the
fields matching at least one pattern. -/
def filterFieldsByPatterns (patterns : List String)
    (source : RxStream MultipartField) : RxStream MultipartField :=
  { items := source.items.filter
      (fun field => patterns.any (fun pattern => matchesFieldPattern field.name pattern)),
    terminal := source.terminal }

/-- `validateRequiredFields` from `multipart-fields.operators.ts`: forward
every item; on upstream completion, error with the required patterns that
were matched by no field, if any. (The incremental `matchedRequiredPatterns`
set of the source contains a pattern iff some forwarded field matched it.) -/
def validateRequiredFields (requiredPatterns : List String)
    (source : RxStream MultipartField) : RxStream MultipartField :=
  { items := source.items,
    terminal :=
      match source.terminal with
      | .error e => .error e
      | .complete =>
        let missingRequired := requiredPatterns.filter
          (fun pattern => !source.items.any (fun field => matchesFieldPattern field.name pattern))
        if missingRequired.length > 0 then .error (.missingFields missingRequired)
        else .complete }

/-- The `tap` callback of `filterFilesByFieldNames`
(`multipart-files.operators.ts`): auto-drain any stream whose field name is
not in the wanted set. -/
def autodrainTap (fieldNames : List String) (stream : MultipartFileStream) :
    MultipartFileStream :=
  if fieldNames.contains stream.fieldname then stream else stream.resume

/-- `filterFilesByFieldNames` from `multipart-files.operators.ts`:
`tap` (auto-drain unwanted) then `filter` on set membership. -/
def filterFilesByFieldNames (fieldNames : List String)
    (source : RxStream MultipartFileStream) : RxStream MultipartFileStream :=
  { items := (source.items.map (autodrainTap fieldNames)).filter
      (fun stream => fieldNames.contains stream.fieldname),
    terminal := source.terminal }

/-- JavaScript `new Set(array)` materialised as a list: first occurrences,
in insertion order. -/
def jsSetOfArray (l : List String) : List String :=
  l.foldl (fun acc a => if acc.contains a then acc else acc ++ [a]) []

/-- `validateRequiredFiles` from `multipart-files.operators.ts`: forward
every item; each observed fieldname is deleted from the required set; on
upstream completion error with the remaining set if non-empty. -/
def validateRequiredFiles (requiredFieldNames : List String)
    (source : RxStream MultipartFileStream) : RxStream MultipartFileStream :=
  { items := source.items,
    terminal :=
      match source.terminal with
      | .error e => .error e
      | .complete =>
        let remaining := (jsSetOfArray requiredFieldNames).filter
          (fun name => !source.items.any (fun stream => stream.fieldname == name))
        if remaining.length > 0 then .error (.missingFiles remaining)
        else .complete }

/-- The `map` callback of `associateFields`
(`multipart-fields.operators.ts`): enrich a field whose name parses as
associative, pass it through unmodified otherwise. -/
def associateFieldsMap (v : MultipartField) : MultipartField :=
  match parseAssociations v.name with
  | some parsed =>
    { v with associations := some parsed.2, basename := some parsed.1, isAssociative := true }
  | none => v

/-- `associateFields` from `multipart-fields.operators.ts`. -/
def associateFields (source : RxStream MultipartField) : RxStream MultipartField :=
  { items := source.items.map associateFieldsMap, terminal := source.terminal }

/-- One element of a decorator's array option: a bare string or a
`[fieldname, required?]` tuple (the second component may be absent). -/
inductive FieldSpecEntry
  | plain (fieldname : String)
  | tuple (fieldname : String) (required : Option Bool)
  deriving DecidableEq, Repr

/-- The field name of an entry (`isString(v) ? v : v[0]`). -/
def FieldSpecEntry.fieldname : FieldSpecEntry → String
  | .plain s => s
  | .tuple s _ => s

/-- `isString(v) || v[1] !== false`: everything is required except a tuple
whose second component is literally `false`. -/
def FieldSpecEntry.isRequiredEntry : FieldSpecEntry → Bool
  | .plain _ => true
  | .tuple _ r => !(r == some false)

/-- The decorator `options` argument:
`string | (string | [fieldname, required?])[] | undefined`. -/
inductive DecoratorOptions
  | undef
  | single (fieldname : String)
  | specs (entries : List FieldSpecEntry)
  deriving DecidableEq, Repr

/-- `multipartFieldsFactory` from `multipart-fields.decorator.ts`, as the
stream transformation it performs: given whether the execution context is
HTTP and the optional `request._fields$` channel, produce the decorated
parameter stream. -/
def multipartFieldsFactory (options : DecoratorOptions) (ctxIsHttp : Bool)
    (fieldsCh : Option (RxStream MultipartField)) : RxStream MultipartField :=
  if !ctxIsHttp then emptyStream
  else
    match fieldsCh with
    | none => emptyStream
    | some fieldsStream =>
      match options with
      | .undef => fieldsStream
      | .single s =>
        validateRequiredFields [s] (filterFieldsByPatterns [s] fieldsStream)
      | .specs entries =>
        let requiredPatterns :=
          (entries.filter (fun v => v.isRequiredEntry)).map (fun v => v.fieldname)
        let optionalPatterns :=
          (entries.filter (fun v => !v.isRequiredEntry)).map (fun v => v.fieldname)
        let allPatterns := requiredPatterns ++ optionalPatterns
        validateRequiredFields requiredPatterns
          (filterFieldsByPatterns allPatterns fieldsStream)

/-- `multipartFilesFactory` from the files decorator, as the stream
transformation it performs on the optional `request._files$` channel. -/
def multipartFilesFactory (options : DecoratorOptions) (ctxIsHttp : Bool)
    (filesCh : Option (RxStream MultipartFileStream)) : RxStream MultipartFileStream :=
  if !ctxIsHttp then emptyStream
  else
    match filesCh with
    | none => emptyStream
    | some filesStream =>
      match options with
      | .undef => filesStream
      | .single s =>
        validateRequiredFiles [s] (filterFilesByFieldNames [s] filesStream)
      | .specs entries =>
        let required :=
          (entries.filter (fun v => v.isRequiredEntry)).map (fun v => v.fieldname)
        let optional :=
          (entries.filter (fun v => !v.isRequiredEntry)).map (fun v => v.fieldname)
        let allFieldNames := required ++ optional
        validateRequiredFiles required
          (filterFilesByFieldNames allFieldNames filesStream)

/-- An event observed by one subscriber of an RxJS `Subject`. -/
inductive SubjectEvent (α : Type)
  | next (value : α)
  | error (e : MError)
  | completed
  deriving DecidableEq, Repr

/-- The observable state of an RxJS `Subject` (or of the outer `Observable`
subscriber): the trace of events it has delivered, and whether it is
stopped. A stopped subject ignores further `next`/`error`/`complete`. -/
structure SubjectState (α : Type) where
  sent : List (SubjectEvent α)
  stopped : Bool
  deriving DecidableEq, Repr

/-- A fresh subject: nothing delivered, live. -/
def SubjectState.fresh {α : Type} : SubjectState α := ⟨[], false⟩

/-- `subject.next(v)`. -/
def SubjectState.nextEv {α : Type} (s : SubjectState α) (v : α) : SubjectState α :=
  if s.stopped then s else { s with sent := s.sent ++ [.next v] }

/-- `subject.error(e)`: delivers the error once and stops. -/
def SubjectState.errorEv {α : Type} (s : SubjectState α) (e : MError) : SubjectState α :=
  if s.stopped then s else ⟨s.sent ++ [.error e], true⟩

/-- `subject.complete()`: delivers completion once and stops. -/
def SubjectState.completeEv {α : Type} (s : SubjectState α) : SubjectState α :=
  if s.stopped then s else ⟨s.sent ++ [.completed], true⟩

/-- The errors a subscriber of the subject has observed, in order. -/
def SubjectState.errorsOf {α : Type} (s : SubjectState α) : List MError :=
  s.sent.filterMap (fun ev => match ev with | .error e => some e | _ => none)

/-- The values a subscriber of the subject has observed, in order. -/
def SubjectState.nextsOf {α : Type} (s : SubjectState α) : List α :=
  s.sent.filterMap (fun ev => match ev with | .next v => some v | _ => none)

/-- The `limits` bag of `MultipartOptions` (busboy limits);
`none` stands for an absent limit (`?? Infinity`). -/
structure MultipartLimits where
  parts : Option Nat := none
  files : Option Nat := none
  fields : Option Nat := none
  deriving DecidableEq, Repr

/-- `MultipartOptions` from `multipart.types.ts` (the parts the decoder
reads): optional limits and the `bubbleErrors` flag. -/
structure MultipartOptions where
  limits : Option MultipartLimits := none
  bubbleErrors : Option Bool := none
  deriving DecidableEq, Repr

/-- `options?.limits?.parts ?? Infinity` (kept as an `Option`). -/
def MultipartOptions.partsLimitOf (o : MultipartOptions) : Option Nat :=
  o.limits.bind (fun l => l.parts)

/-- `options?.limits?.files ?? Infinity` (kept as an `Option`). -/
def MultipartOptions.filesLimitOf (o : MultipartOptions) : Option Nat :=
  o.limits.bind (fun l => l.files)

/-- `options?.limits?.fields ?? Infinity` (kept as an `Option`). -/
def MultipartOptions.fieldsLimitOf (o : MultipartOptions) : Option Nat :=
  o.limits.bind (fun l => l.fields)

/-- The events driving one run of `parseMultipartData` after subscription:
busboy listener invocations, the request-stream error listener, and
completion of `upstreamExecutionDone$`. `fileEnd` is the `end` event of a
previously delivered file stream together with busboy's truncation flag for
that part. -/
inductive ParserEvent
  | partsLimitReached
  | fileStarted (fieldname filename encoding mimetype : String)
  | fileEnd (fieldname : String) (truncated : Bool)
  | filesLimitReached
  | fieldArrived (fieldname value : String) (nameTruncated valueTruncated : Bool)
      (encoding mimetype : String)
  | fieldsLimitReached
  | finish
  | busboyFailed (msg : String)
  | requestFailed (msg : String)
  | upstreamDone
  deriving DecidableEq, Repr

/-- The decoder's observable state: the two channels (`files`, `fields`
subjects), the decoder's own output (`subscriber`), and the
`shouldEmitErrors` gate. -/
structure ParserState where
  files : SubjectState MultipartFileStream
  fields : SubjectState MultipartField
  out : SubjectState Unit
  shouldEmitErrors : Bool
  deriving DecidableEq, Repr

/-- State right after subscription: `subscriber.next({files, fields})` has
been delivered (modelled as a unit value), channels are live, and
`shouldEmitErrors` is `true`. -/
def initialParserState : ParserState :=
  { files := .fresh, fields := .fresh,
    out := SubjectState.nextEv .fresh (),
    shouldEmitErrors := true }

/-- The decoder's `fail` closure: when `shouldEmitErrors` holds, error the
file channel, the field channel and the decoder's own stream. -/
def failPath (e : MError) (s : ParserState) : ParserState :=
  if s.shouldEmitErrors then
    { s with files := s.files.errorEv e,
             fields := s.fields.errorEv e,
             out := s.out.errorEv e }
  else s

/-- One listener invocation of `parseMultipartData`
(`multipart.parser.ts`). -/
def parserStep (options : MultipartOptions) (s : ParserState) (ev : ParserEvent) :
    ParserState :=
  match ev with
  | .partsLimitReached => failPath (.partsLimit options.partsLimitOf) s
  | .fileStarted fieldname filename encoding mimetype =>
    let incomingFile : MultipartFileStream :=
      { fieldname := fieldname, filename := filename,
        encoding := encoding, mimetype := mimetype }
    { s with files := s.files.nextEv incomingFile }
  | .fileEnd fieldname truncated =>
    if truncated then failPath (.truncatedFile fieldname) s else s
  | .filesLimitReached => failPath (.filesLimit options.filesLimitOf) s
  | .fieldArrived fieldname value nameTruncated valueTruncated encoding mimetype =>
    let incomingField : MultipartField :=
      { name := fieldname, value := value, mimetype := mimetype, encoding := encoding }
    if nameTruncated || valueTruncated then failPath (.truncatedField fieldname) s
    else { s with fields := s.fields.nextEv incomingField }
  | .fieldsLimitReached => failPath (.fieldsLimit options.fieldsLimitOf) s
  | .finish =>
    { s with files := s.files.completeEv,
             fields := s.fields.completeEv,
             out := s.out.completeEv }
  | .busboyFailed msg => failPath (.base msg) s
  | .requestFailed msg => failPath (.base msg) s
  | .upstreamDone =>
    { s with shouldEmitErrors := !(options.bubbleErrors == some true) }

/-- Run the decoder over a sequence of events from the post-subscription
state. -/
def runParser (options : MultipartOptions) (events : List ParserEvent) : ParserState :=
  events.foldl (parserStep options) initialParserState

/-- The resources the decoder's teardown closure releases: the
`upstreamExecutionDone$` subscription, the `req → busboy` pipe, and the
busboy listener registry. -/
structure TeardownState where
  upstreamSubClosed : Bool
  pipedToTokenizer : Bool
  tokenizerListeners : List String
  deriving DecidableEq, Repr

/-- RxJS `Subscription.prototype.unsubscribe`: marks the subscription
closed; a second call returns early without effect or error. -/
def unsubscribeUpstream (s : TeardownState) : TeardownState :=
  if s.upstreamSubClosed then s else { s with upstreamSubClosed := true }

/-- Node `Readable.prototype.unpipe(dest)`: removes the pipe if present;
calling it with no such pipe is a silent no-op. -/
def unpipeTokenizer (s : TeardownState) : TeardownState :=
  if s.pipedToTokenizer then { s with pipedToTokenizer := false } else s

/-- Node `EventEmitter.prototype.removeAllListeners()`. -/
def removeTokenizerListeners (s : TeardownState) : TeardownState :=
  { s with tokenizerListeners := [] }

/-- The teardown closure returned by the `parseMultipartData` subscribe
callback: unsubscribe, unpipe, remove all listeners, in that order. -/
def parserTeardown (s : TeardownState) : TeardownState :=
  removeTokenizerListeners (unpipeTokenizer (unsubscribeUpstream s))

/-- Attachment state before parsing ever started: nothing piped, no
listeners registered, completion-signal subscription still open. -/
def neverStartedState : TeardownState :=
  { upstreamSubClosed := false, pipedToTokenizer := false, tokenizerListeners := [] }

/-- The three HTTP exception classes the filter can build. -/
inductive HttpExceptionKind
  | payloadTooLarge
  | badRequest
  | internalServerError
  deriving DecidableEq, Repr

/-- `HttpException.getStatus()` for the three classes. -/
def HttpExceptionKind.status : HttpExceptionKind → Nat
  | .payloadTooLarge => 413
  | .badRequest => 400
  | .internalServerError => 500

/-- `instanceof PartsLimitError`. -/
def isPartsLimitError : MError → Bool
  | .partsLimit _ => true
  | _ => false

/-- `instanceof FilesLimitError`. -/
def isFilesLimitError : MError → Bool
  | .filesLimit _ => true
  | _ => false

/-- `instanceof FieldsLimitError`. -/
def isFieldsLimitError : MError → Bool
  | .fieldsLimit _ => true
  | _ => false

/-- `instanceof TruncatedFileError`. -/
def isTruncatedFileError : MError → Bool
  | .truncatedFile _ => true
  | _ => false

/-- `instanceof TruncatedFieldError`. -/
def isTruncatedFieldError : MError → Bool
  | .truncatedField _ => true
  | _ => false

/-- `instanceof MissingFilesError`. -/
def isMissingFilesError : MError → Bool
  | .missingFiles _ => true
  | _ => false

/-- `instanceof MissingFieldsError`. -/
def isMissingFieldsError : MError → Bool
  | .missingFields _ => true
  | _ => false

/-- The `instanceof` chain of `MultipartExceptionFilter.catch`
(`nestjs/exception-filter.ts`), mapping a caught `MultipartError` to the
HTTP exception it constructs. -/
def exceptionFilterCatch (e : MError) : HttpExceptionKind :=
  if isPartsLimitError e || isFilesLimitError e || isFieldsLimitError e then
    .payloadTooLarge
  else if isTruncatedFileError e || isTruncatedFieldError e
      || isMissingFilesError e || isMissingFieldsError e then
    .badRequest
  else
    .internalServerError

/-- The HTTP status written to the response for a caught error. -/
def exceptionFilterStatus (e : MError) : Nat :=
  (exceptionFilterCatch e).status

/-- Invariant tying the three error sinks of the decoder together: the
file channel, the field channel and the decoder's own stream stop in
lockstep, have observed the same errors, a live channel has observed no
error yet, and no channel ever observes more than one error. -/
def ParserInv (s : ParserState) : Prop :=
  s.files.stopped = s.fields.stopped ∧
  s.fields.stopped = s.out.stopped ∧
  s.files.errorsOf = s.fields.errorsOf ∧
  s.fields.errorsOf = s.out.errorsOf ∧
  (s.files.stopped = false → s.files.errorsOf = []) ∧
  s.files.errorsOf.length ≤ 1

/-! ## Theorems -/

/-- C8: the error-to-HTTP-status mapping is a pure function of the error
kind: the three count-limit errors map to 413 (payload too large), the two
truncation errors and the two missing-required errors map to 400 (bad
request), and every other `MultipartError` (the base class, which wraps
initialization, busboy-processing and upstream-stream failures) maps to
500 (internal error). -/
theorem c8_error_status_mapping :
    (∀ l, exceptionFilterStatus (.partsLimit l) = 413) ∧
    (∀ l, exceptionFilterStatus (.filesLimit l) = 413) ∧
    (∀ l, exceptionFilterStatus (.fieldsLimit l) = 413) ∧
    (∀ f, exceptionFilterStatus (.truncatedFile f) = 400) ∧
    (∀ f, exceptionFilterStatus (.truncatedField f) = 400) ∧
    (∀ ns, exceptionFilterStatus (.missingFiles ns) = 400) ∧
    (∀ ns, exceptionFilterStatus (.missingFields ns) = 400) ∧
    (∀ msg, exceptionFilterStatus (.base msg) = 500) := by
  refine ⟨?_, ?_, ?_, ?_, ?_, ?_, ?_, ?_⟩ <;> intro x <;> rfl

/-- C9: the decoder teardown (close the completion-signal subscription,
unpipe the request from the tokenizer, remove all tokenizer listeners) is
idempotent — running it twice yields the same state as running it once,
each step being a silent no-op the second time — and it is safe on the
state where parsing never started. -/
theorem c9_teardown_idempotent :
    (∀ s : TeardownState, parserTeardown (parserTeardown s) = parserTeardown s) ∧
    parserTeardown neverStartedState =
      { upstreamSubClosed := true, pipedToTokenizer := false, tokenizerListeners := [] } := by
  constructor
  · intro s
    cases s with
    | mk closed piped listeners =>
      cases closed <;> cases piped <;>
        simp [parserTeardown, unsubscribeUpstream, unpipeTokenizer, removeTokenizerListeners]
  · rfl

/-- C10: when the execution context is not HTTP, or the request carries no
attached field/file channel, both parameter decorators return `EMPTY` — a
stream with no items that completes without error — for every option
shape, so required-entry validation is silently skipped and no
missing-item error can be raised. -/
theorem c10_decorators_empty_without_channel :
    (∀ options fieldsCh, multipartFieldsFactory options false fieldsCh = emptyStream) ∧
    (∀ options, multipartFieldsFactory options true none = emptyStream) ∧
    (∀ options filesCh, multipartFilesFactory options false filesCh = emptyStream) ∧
    (∀ options, multipartFilesFactory options true none = emptyStream) ∧
    (@emptyStream MultipartField).items = [] ∧
    (@emptyStream MultipartField).terminal = .complete ∧
    (@emptyStream MultipartFileStream).items = [] ∧
    (@emptyStream MultipartFileStream).terminal = .complete := by
  refine ⟨fun options fieldsCh => rfl, fun options => rfl,
          fun options filesCh => rfl, fun options => rfl, rfl, rfl, rfl, rfl⟩

/-- The tap callback never changes the field name. -/
theorem autodrainTap_fieldname (fieldNames : List String) (p : MultipartFileStream) :
    (autodrainTap fieldNames p).fieldname = p.fieldname := by
  unfold autodrainTap
  split <;> rfl

/-- The tap callback leaves wanted streams untouched. -/
theorem autodrainTap_of_contains (fieldNames : List String) (p : MultipartFileStream)
    (h : fieldNames.contains p.fieldname = true) : autodrainTap fieldNames p = p := by
  have hm : p.fieldname ∈ fieldNames := by simpa using h
  unfold autodrainTap
  simp [hm]

/-- The tap callback resumes (drains) unwanted streams. -/
theorem autodrainTap_resumed (fieldNames : List String) (p : MultipartFileStream)
    (h : fieldNames.contains p.fieldname = false) :
    (autodrainTap fieldNames p).resumed = true := by
  have hm : p.fieldname ∉ fieldNames := by simpa using h
  unfold autodrainTap
  simp [hm, MultipartFileStream.resume]

/-- Filtering the tapped streams is the same as filtering the original
ones: the tap only touches streams the filter drops. -/
theorem filterFiles_items_eq (fieldNames : List String) (l : List MultipartFileStream) :
    (l.map (autodrainTap fieldNames)).filter
        (fun q => fieldNames.contains q.fieldname) =
      l.filter (fun q => fieldNames.contains q.fieldname) := by
  induction l with
  | nil => rfl
  | cons p l ih =>
    simp only [List.map_cons, List.filter_cons, autodrainTap_fieldname]
    cases h : fieldNames.contains p.fieldname with
    | false => simpa using ih
    | true => rw [autodrainTap_of_contains fieldNames p h]; simpa using ih

/-- `List.contains` agrees with propositional membership for strings. -/
theorem contains_eq_decide_mem (ns : List String) (x : String) :
    ns.contains x = decide (x ∈ ns) := by
  by_cases h : x ∈ ns
  · simp [List.contains, List.elem_iff, h]
  · simp only [List.contains]
    rw [decide_eq_false h]
    rcases he : ns.elem x with _ | _
    · rfl
    · exact absurd (List.elem_iff.mp he) h

/-- C5: `filterFilesByFieldNames(fieldNames)` emits exactly the incoming
file parts whose field name is in `fieldNames`, unchanged and in upstream
order, forwards the upstream terminal event, and invokes `resume()` (the
auto-drain) on the byte source of every part whose field name is not in
the set before dropping it. -/
theorem c5_filter_files_autodrain (fieldNames : List String)
    (source : RxStream MultipartFileStream) :
    (filterFilesByFieldNames fieldNames source).items =
      source.items.filter (fun q => fieldNames.contains q.fieldname) ∧
    (filterFilesByFieldNames fieldNames source).terminal = source.terminal ∧
    (∀ p ∈ source.items, fieldNames.contains p.fieldname = false →
      (autodrainTap fieldNames p).resumed = true) := by
  refine ⟨?_, rfl, ?_⟩
  · exact filterFiles_items_eq fieldNames source.items
  · intro p _ h
    exact autodrainTap_resumed fieldNames p h

/-- Witness for C5 at a concrete input: field-name set `["doc"]`, one
matching part and one non-matching part. -/
theorem c5_filter_files_autodrain_witness :
    (filterFilesByFieldNames ["doc"]
        ⟨[⟨"doc", "d.txt", "7bit", "text", false, false⟩,
          ⟨"other", "o.txt", "7bit", "text", false, false⟩], .complete⟩).items =
      [⟨"doc", "d.txt", "7bit", "text", false, false⟩] ∧
    (autodrainTap ["doc"] ⟨"other", "o.txt", "7bit", "text", false, false⟩).resumed = true := by
  have h := c5_filter_files_autodrain ["doc"]
    ⟨[⟨"doc", "d.txt", "7bit", "text", false, false⟩,
      ⟨"other", "o.txt", "7bit", "text", false, false⟩], .complete⟩
  exact ⟨h.1.trans (by decide),
    h.2.2 ⟨"other", "o.txt", "7bit", "text", false, false⟩ (by decide) (by decide)⟩

/-- A one-character list is a prefix exactly when it is the first
character. -/
theorem singleton_isPrefix_iff (c : Char) (l : List Char) :
    [c] <+: l ↔ l.take 1 = [c] := by
  constructor
  · rintro ⟨t, ht⟩
    subst ht
    rfl
  · intro h
    cases l with
    | nil => simp at h
    | cons a l' =>
      simp only [List.take_succ_cons, List.take_zero] at h
      cases h
      exact ⟨l', rfl⟩

/-- C6: a field name `f` matches pattern `p` iff either `p` begins with
the marker `^` and `f` starts with `p` minus the marker, or `p` has no
marker and `f = p` (so matching is case-sensitive), and file field-name
filtering uses exact set membership only — a `^`-marked name in the set is
not treated as a prefix there. -/
theorem c6_pattern_matching :
    (∀ f p : String, matchesFieldPattern f p = true ↔
        ((p.data.take 1 = ['^'] ∧ p.data.drop 1 <+: f.data) ∨
         (p.data.take 1 ≠ ['^'] ∧ f = p))) ∧
    (∀ (fieldNames : List String) (source : RxStream MultipartFileStream),
        (filterFilesByFieldNames fieldNames source).items =
          source.items.filter (fun q => decide (q.fieldname ∈ fieldNames))) ∧
    matchesFieldPattern "Name" "name" = false ∧
    matchesFieldPattern "username" "^user" = true ∧
    (filterFilesByFieldNames ["^user"]
        ⟨[⟨"username", "u.txt", "7bit", "text", false, false⟩], .complete⟩).items = [] := by
  refine ⟨?_, ?_, by decide, by decide, by decide⟩
  · intro f p
    unfold matchesFieldPattern parseFieldPattern strStartsWith strDrop
    rcases hm : ("^".data.isPrefixOf p.data) with _ | _
    · have hnp : ¬ p.data.take 1 = ['^'] := by
        intro h1
        have : ("^".data : List Char) <+: p.data := (singleton_isPrefix_iff '^' p.data).mpr h1
        rw [← List.isPrefixOf_iff_prefix] at this
        rw [hm] at this
        exact Bool.false_ne_true this
      simp only [hm, Bool.false_eq_true, if_false, beq_iff_eq]
      constructor
      · intro h
        exact Or.inr ⟨hnp, h⟩
      · rintro (⟨h1, _⟩ | ⟨_, h2⟩)
        · exact absurd h1 hnp
        · exact h2
    · have hp : p.data.take 1 = ['^'] := by
        have : ("^".data : List Char) <+: p.data := List.isPrefixOf_iff_prefix.mp hm
        exact (singleton_isPrefix_iff '^' p.data).mp this
      simp only [hm, if_true]
      rw [List.isPrefixOf_iff_prefix]
      constructor
      · intro h
        exact Or.inl ⟨hp, h⟩
      · rintro (⟨_, h2⟩ | ⟨h1, _⟩)
        · exact h2
        · exact absurd hp h1
  · intro fieldNames source
    have h := filterFiles_items_eq fieldNames source.items
    unfold filterFilesByFieldNames
    simp only [h]
    congr 1
    funext q
    exact contains_eq_decide_mem fieldNames q.fieldname

/-- A character list free of both bracket characters. -/
def bracketFree (cs : List Char) : Bool :=
  cs.all (fun c => !(c == '[') && !(c == ']'))

/-- The concatenation of bracket groups `[g1][g2]...[gn]`. -/
def groupsConcat (gs : List (List Char)) : List Char :=
  (gs.map (fun g => '[' :: (g ++ [']']))).flatten

/-- Folding the loop over bracket-free characters just extends the
buffer. -/
theorem foldlM_stepAssoc_bracketFree (cs : List Char) :
    ∀ s : AssocState, bracketFree cs = true →
      cs.foldlM stepAssoc s = some { s with buffer := s.buffer ++ cs } := by
  induction cs with
  | nil => intro s _; simp
  | cons c cs ih =>
    intro s hbf
    have hc : (!(c == '[') && !(c == ']')) = true := by
      have := List.all_eq_true.mp hbf c (List.mem_cons_self c cs)
      exact this
    have hc1 : ¬ c = '[' := by
      intro h
      subst h
      simp at hc
    have hc2 : ¬ c = ']' := by
      intro h
      subst h
      simp at hc
    have hbf' : bracketFree cs = true := by
      apply List.all_eq_true.mpr
      intro x hx
      exact List.all_eq_true.mp hbf x (List.mem_cons_of_mem c hx)
    have hstep : stepAssoc s c = some { s with buffer := s.buffer ++ [c] } := by
      unfold stepAssoc
      rw [if_neg hc1, if_neg hc2]
    rw [List.foldlM_cons, hstep]
    show cs.foldlM stepAssoc { s with buffer := s.buffer ++ [c] } = _
    rw [ih _ hbf']
    simp

/-- Folding the loop over one bracket group `[g]` from outside a bracket:
the group content is appended to the associations, the basename is
captured from the buffer if still empty, and the buffer is cleared. -/
theorem foldlM_stepAssoc_group (g : List Char) (s : AssocState)
    (hg : bracketFree g = true) (hb : s.inBracket = false) :
    ('[' :: (g ++ [']'])).foldlM stepAssoc s =
      some { associations := s.associations ++ [g],
             basename := if s.basename = [] then s.buffer else s.basename,
             buffer := [],
             inBracket := false } := by
  have hopen : stepAssoc s '[' =
      some { associations := s.associations,
             basename := if s.basename = [] then s.buffer else s.basename,
             buffer := [],
             inBracket := true } := by
    unfold stepAssoc
    rw [if_pos rfl, hb]
    rfl
  rw [List.foldlM_cons, hopen]
  simp only [Option.bind_eq_bind, Option.some_bind]
  rw [List.foldlM_append, foldlM_stepAssoc_bracketFree g _ hg]
  simp only [Option.bind_eq_bind, Option.some_bind]
  rw [List.foldlM_cons]
  have hclose : stepAssoc
      { associations := s.associations,
        basename := if s.basename = [] then s.buffer else s.basename,
        buffer := [] ++ g,
        inBracket := true } ']' =
      some { associations := s.associations ++ [[] ++ g],
             basename := if s.basename = [] then s.buffer else s.basename,
             buffer := [],
             inBracket := false } := by
    unfold stepAssoc
    simp
  rw [hclose]
  simp

/-- Folding the loop over a concatenation of bracket groups from a state
outside a bracket with an empty buffer appends all the group contents and
leaves the basename untouched. -/
theorem foldlM_stepAssoc_groups (gs : List (List Char)) :
    ∀ s : AssocState, (∀ g ∈ gs, bracketFree g = true) →
      s.inBracket = false → s.buffer = [] →
      (groupsConcat gs).foldlM stepAssoc s =
        some { associations := s.associations ++ gs,
               basename := s.basename,
               buffer := [],
               inBracket := false } := by
  induction gs with
  | nil =>
    intro s _ hb hbuf
    show some s = _
    cases s
    simp_all
  | cons g gs ih =>
    intro s hgs hb hbuf
    have hcat : groupsConcat (g :: gs) = ('[' :: (g ++ [']'])) ++ groupsConcat gs := by
      unfold groupsConcat
      simp
    rw [hcat, List.foldlM_append,
      foldlM_stepAssoc_group g s (hgs g (List.mem_cons_self g gs)) hb]
    have hbase : (if s.basename = [] then s.buffer else s.basename) = s.basename := by
      rw [hbuf]
      split <;> simp_all
    show (groupsConcat gs).foldlM stepAssoc _ = _
    rw [ih _ (fun x hx => hgs x (List.mem_cons_of_mem g hx)) rfl rfl]
    rw [hbase]
    simp

/-- C4: `parseAssociations` is total (a Lean function); on every name made
of a bracket-free prefix followed by one or more balanced, non-nested
bracket groups it yields the prefix as basename and the group contents in
order; the concrete round-trips of the spec hold, including `a[]`; a name
with no group, a nested `[`, an unmatched `]`, an unterminated `[`, or the
empty name parses to `none`, and `associateFields` passes such a field
through unmodified. -/
theorem c4_parse_associations :
    (∀ (pre : List Char) (gs : List (List Char)),
        bracketFree pre = true → gs ≠ [] → (∀ g ∈ gs, bracketFree g = true) →
        parseAssociations (String.mk (pre ++ groupsConcat gs)) =
          some (String.mk pre, gs.map String.mk)) ∧
    parseAssociations "a[b][c]" = some ("a", ["b", "c"]) ∧
    parseAssociations "a[]" = some ("a", [""]) ∧
    parseAssociations "plain" = none ∧
    parseAssociations "a[b[c]]" = none ∧
    parseAssociations "bad]" = none ∧
    parseAssociations "bad[" = none ∧
    parseAssociations "" = none ∧
    (∀ v : MultipartField, parseAssociations v.name = none → associateFieldsMap v = v) := by
  refine ⟨?_, by decide, by decide, by decide, by decide, by decide, by decide, by decide, ?_⟩
  · intro pre gs hpre hne hgs
    obtain ⟨g, gs', rfl⟩ : ∃ g gs', gs = g :: gs' := by
      cases gs with
      | nil => exact absurd rfl hne
      | cons g gs' => exact ⟨g, gs', rfl⟩
    unfold parseAssociations parseAssociationsL
    have hlen : (String.mk (pre ++ groupsConcat (g :: gs'))).data.length ≠ 0 := by
      show (pre ++ groupsConcat (g :: gs')).length ≠ 0
      have : groupsConcat (g :: gs') = ('[' :: (g ++ [']'])) ++ groupsConcat gs' := by
        unfold groupsConcat
        simp
      rw [this]
      simp
    rw [if_neg hlen]
    have hfold : (String.mk (pre ++ groupsConcat (g :: gs'))).data.foldlM stepAssoc
        ⟨[], [], [], false⟩ = some ⟨[g] ++ gs', pre, [], false⟩ := by
      show (pre ++ groupsConcat (g :: gs')).foldlM stepAssoc ⟨[], [], [], false⟩ = _
      have hcat : groupsConcat (g :: gs') = ('[' :: (g ++ [']'])) ++ groupsConcat gs' := by
        unfold groupsConcat
        simp
      rw [List.foldlM_append, foldlM_stepAssoc_bracketFree pre _ hpre]
      show (groupsConcat (g :: gs')).foldlM stepAssoc ⟨[], [], pre, false⟩ = _
      rw [hcat, List.foldlM_append,
        foldlM_stepAssoc_group g _ (hgs g (List.mem_cons_self g gs')) rfl]
      show (groupsConcat gs').foldlM stepAssoc _ = _
      rw [foldlM_stepAssoc_groups gs' _
        (fun x hx => hgs x (List.mem_cons_of_mem g hx)) rfl rfl]
      rfl
    rw [hfold]
    show Option.map _ (if false = true then none else _) = _
    simp only [if_neg (Bool.false_ne_true)]
    have hassoc : (([g] ++ gs' : List (List Char)).length = 0) = False := by
      simp
    simp only [hassoc, if_false]
    by_cases hp : pre = []
    · simp [hp]
    · simp [hp]
  · intro v hv
    unfold associateFieldsMap
    rw [hv]

/-- Witness for C4 at concrete inputs: the shape theorem applied to
`"a" ++ "[b][c]"`, and the pass-through applied to a `plain` field. -/
theorem c4_parse_associations_witness :
    parseAssociations (String.mk ("a".data ++ groupsConcat [['b'], ['c']])) =
      some (String.mk "a".data, ([['b'], ['c']] : List (List Char)).map String.mk) ∧
    associateFieldsMap ⟨"plain", "v", "", "", false, none, none⟩ =
      ⟨"plain", "v", "", "", false, none, none⟩ :=
  ⟨c4_parse_associations.1 "a".data [['b'], ['c']] (by decide) (by decide) (by decide),
   c4_parse_associations.2.2.2.2.2.2.2.2 ⟨"plain", "v", "", "", false, none, none⟩ (by decide)⟩

/-- Membership in the JavaScript-`Set` fold is membership in the source
array. -/
theorem mem_jsSetFold (l : List String) :
    ∀ (acc : List String) (x : String),
      x ∈ l.foldl (fun acc a => if acc.contains a then acc else acc ++ [a]) acc ↔
        (x ∈ acc ∨ x ∈ l) := by
  induction l with
  | nil => intro acc x; simp
  | cons a l ih =>
    intro acc x
    simp only [List.foldl_cons]
    cases h : acc.contains a with
    | true =>
      have ha : a ∈ acc := by simpa using h
      simp only [h, if_true]
      rw [ih]
      constructor
      · rintro (hx | hx)
        · exact Or.inl hx
        · exact Or.inr (List.mem_cons_of_mem a hx)
      · rintro (hx | hx)
        · exact Or.inl hx
        · rcases List.mem_cons.mp hx with rfl | hx
          · exact Or.inl ha
          · exact Or.inr hx
    | false =>
      rw [if_neg (by simp [h])]
      rw [ih]
      simp only [List.mem_append, List.mem_singleton, List.mem_cons]
      tauto

/-- `x ∈ jsSetOfArray l ↔ x ∈ l`. -/
theorem mem_jsSetOfArray (l : List String) (x : String) :
    x ∈ jsSetOfArray l ↔ x ∈ l := by
  unfold jsSetOfArray
  rw [mem_jsSetFold]
  simp

/-- The negated `any` in the validators says: no item matches. -/
theorem not_any_matches_iff (items : List MultipartField) (p : String) :
    ((!items.any (fun f => matchesFieldPattern f.name p)) = true) ↔
      ∀ f ∈ items, matchesFieldPattern f.name p = false := by
  simp [List.any_eq_true]

/-- The negated `any` in the file validator says: no stream has that
field name. -/
theorem not_any_fieldname_iff (items : List MultipartFileStream) (n : String) :
    ((!items.any (fun st => st.fieldname == n)) = true) ↔
      ∀ st ∈ items, st.fieldname ≠ n := by
  simp only [Bool.not_eq_true', List.any_eq_false, beq_iff_eq]

/-- C3: `validateRequiredFields`/`validateRequiredFiles` forward all
upstream items unchanged; when the upstream completes they complete iff
every required entry matched some observed item, and otherwise error once
with a `MissingFieldsError`/`MissingFilesError` whose list contains
exactly the unsatisfied required entries; entries marked optional
(`[name, false]`) never appear in a raised missing list, and the spec
scenario — decorator options `["name", ["meta", false]]` with only `name`
supplied — emits `name`'s field and completes without error. -/
theorem c3_required_validation :
    (∀ (patterns : List String) (src : RxStream MultipartField),
        (validateRequiredFields patterns src).items = src.items) ∧
    (∀ (names : List String) (src : RxStream MultipartFileStream),
        (validateRequiredFiles names src).items = src.items) ∧
    (∀ (patterns : List String) (src : RxStream MultipartField),
        src.terminal = .complete →
        ((∀ p ∈ patterns, ∃ f ∈ src.items, matchesFieldPattern f.name p = true) →
            (validateRequiredFields patterns src).terminal = .complete) ∧
        ((∃ p ∈ patterns, ∀ f ∈ src.items, matchesFieldPattern f.name p = false) →
            ∃ missing, missing ≠ [] ∧
              (validateRequiredFields patterns src).terminal =
                .error (.missingFields missing) ∧
              ∀ q, q ∈ missing ↔
                (q ∈ patterns ∧ ∀ f ∈ src.items, matchesFieldPattern f.name q = false))) ∧
    (∀ (names : List String) (src : RxStream MultipartFileStream),
        src.terminal = .complete →
        ((∀ n ∈ names, ∃ st ∈ src.items, st.fieldname = n) →
            (validateRequiredFiles names src).terminal = .complete) ∧
        ((∃ n ∈ names, ∀ st ∈ src.items, st.fieldname ≠ n) →
            ∃ missing, missing ≠ [] ∧
              (validateRequiredFiles names src).terminal = .error (.missingFiles missing) ∧
              ∀ q, q ∈ missing ↔ (q ∈ names ∧ ∀ st ∈ src.items, st.fieldname ≠ q))) ∧
    (∀ (entries : List FieldSpecEntry) (src : RxStream MultipartField) (ms : List String),
        src.terminal = .complete →
        (multipartFieldsFactory (.specs entries) true (some src)).terminal =
          .error (.missingFields ms) →
        ∀ m ∈ ms, ∃ en, en ∈ entries ∧ en.isRequiredEntry = true ∧ en.fieldname = m) ∧
    (multipartFieldsFactory (.specs [.plain "name", .tuple "meta" (some false)]) true
        (some ⟨[⟨"name", "John", "", "", false, none, none⟩], .complete⟩) =
      ⟨[⟨"name", "John", "", "", false, none, none⟩], .complete⟩) := by
  have hfieldsTerm : ∀ (patterns : List String) (src : RxStream MultipartField),
      src.terminal = .complete →
      (validateRequiredFields patterns src).terminal =
        (if (patterns.filter
              (fun p => !src.items.any (fun f => matchesFieldPattern f.name p))).length > 0
         then .error (.missingFields (patterns.filter
              (fun p => !src.items.any (fun f => matchesFieldPattern f.name p))))
         else .complete) := by
    intro patterns src hc
    unfold validateRequiredFields
    rw [hc]
  have hfilesTerm : ∀ (names : List String) (src : RxStream MultipartFileStream),
      src.terminal = .complete →
      (validateRequiredFiles names src).terminal =
        (if ((jsSetOfArray names).filter
              (fun n => !src.items.any (fun st => st.fieldname == n))).length > 0
         then .error (.missingFiles ((jsSetOfArray names).filter
              (fun n => !src.items.any (fun st => st.fieldname == n))))
         else .complete) := by
    intro names src hc
    unfold validateRequiredFiles
    rw [hc]
  refine ⟨fun patterns src => rfl, fun names src => rfl, ?_, ?_, ?_, by decide⟩
  · intro patterns src hc
    constructor
    · intro hall
      rw [hfieldsTerm patterns src hc]
      have hnil : patterns.filter
          (fun p => !src.items.any (fun f => matchesFieldPattern f.name p)) = [] := by
        apply List.filter_eq_nil_iff.mpr
        intro p hp
        intro hfail
        rcases (not_any_matches_iff src.items p).mp hfail with hnone
        rcases hall p hp with ⟨f, hf, hm⟩
        rw [hnone f hf] at hm
        exact Bool.false_ne_true hm
      rw [hnil]
      rfl
    · intro hsome
      rcases hsome with ⟨p, hp, hnomatch⟩
      set missing := patterns.filter
        (fun q => !src.items.any (fun f => matchesFieldPattern f.name q)) with hmdef
      have hpmem : p ∈ missing := by
        rw [hmdef]
        apply List.mem_filter.mpr
        exact ⟨hp, (not_any_matches_iff src.items p).mpr hnomatch⟩
      have hne : missing ≠ [] := fun h => by rw [h] at hpmem; exact List.not_mem_nil p hpmem
      refine ⟨missing, hne, ?_, ?_⟩
      · rw [hfieldsTerm patterns src hc, ← hmdef, if_pos]
        exact List.length_pos.mpr hne
      · intro q
        rw [hmdef, List.mem_filter]
        constructor
        · rintro ⟨hq, hfa⟩
          exact ⟨hq, (not_any_matches_iff src.items q).mp hfa⟩
        · rintro ⟨hq, hfa⟩
          exact ⟨hq, (not_any_matches_iff src.items q).mpr hfa⟩
  · intro names src hc
    constructor
    · intro hall
      rw [hfilesTerm names src hc]
      have hnil : (jsSetOfArray names).filter
          (fun n => !src.items.any (fun st => st.fieldname == n)) = [] := by
        apply List.filter_eq_nil_iff.mpr
        intro n hn hfail
        rcases (not_any_fieldname_iff src.items n).mp hfail with hnone
        rcases hall n ((mem_jsSetOfArray names n).mp hn) with ⟨st, hst, hm⟩
        exact hnone st hst hm
      rw [hnil]
      rfl
    · intro hsome
      rcases hsome with ⟨n, hn, hnomatch⟩
      set missing := (jsSetOfArray names).filter
        (fun q => !src.items.any (fun st => st.fieldname == q)) with hmdef
      have hpmem : n ∈ missing := by
        rw [hmdef]
        apply List.mem_filter.mpr
        exact ⟨(mem_jsSetOfArray names n).mpr hn, (not_any_fieldname_iff src.items n).mpr hnomatch⟩
      have hne : missing ≠ [] := fun h => by rw [h] at hpmem; exact List.not_mem_nil n hpmem
      refine ⟨missing, hne, ?_, ?_⟩
      · rw [hfilesTerm names src hc, ← hmdef, if_pos]
        exact List.length_pos.mpr hne
      · intro q
        rw [hmdef, List.mem_filter]
        constructor
        · rintro ⟨hq, hfa⟩
          exact ⟨(mem_jsSetOfArray names q).mp hq, (not_any_fieldname_iff src.items q).mp hfa⟩
        · rintro ⟨hq, hfa⟩
          exact ⟨(mem_jsSetOfArray names q).mpr hq, (not_any_fieldname_iff src.items q).mpr hfa⟩
  · intro entries src ms hc hterm
    have hfac : multipartFieldsFactory (.specs entries) true (some src) =
        validateRequiredFields
          ((entries.filter (fun v => v.isRequiredEntry)).map (fun v => v.fieldname))
          (filterFieldsByPatterns
            (((entries.filter (fun v => v.isRequiredEntry)).map (fun v => v.fieldname)) ++
              ((entries.filter (fun v => !v.isRequiredEntry)).map (fun v => v.fieldname)))
            src) := rfl
    rw [hfac] at hterm
    set filtered := filterFieldsByPatterns
      (((entries.filter (fun v => v.isRequiredEntry)).map (fun v => v.fieldname)) ++
        ((entries.filter (fun v => !v.isRequiredEntry)).map (fun v => v.fieldname)))
      src with hfdef
    have hfc : filtered.terminal = .complete := hc
    rw [hfieldsTerm _ filtered hfc] at hterm
    set missing := ((entries.filter (fun v => v.isRequiredEntry)).map
      (fun v => v.fieldname)).filter
        (fun p => !filtered.items.any (fun f => matchesFieldPattern f.name p)) with hmdef
    intro m hm
    have hmsval : ms = missing := by
      by_cases hlen : missing.length > 0
      · rw [if_pos hlen] at hterm
        injection hterm with h1
        injection h1 with h2
        exact h2.symm
      · rw [if_neg hlen] at hterm
        exact absurd hterm (by simp)
    rw [hmsval] at hm
    rw [hmdef] at hm
    have hm' := List.mem_filter.mp hm
    rcases List.mem_map.mp hm'.1 with ⟨en, hen, hfn⟩
    have hen' := List.mem_filter.mp hen
    exact ⟨en, hen'.1, by simpa using hen'.2, hfn⟩

/-- Witness for C3 at concrete inputs: a satisfied required field pattern
completes, and a required file name that never arrives errors with
exactly that name missing. -/
theorem c3_required_validation_witness :
    (validateRequiredFields ["name"]
        ⟨[⟨"name", "John", "", "", false, none, none⟩], .complete⟩).terminal = .complete ∧
    (∃ missing, missing ≠ [] ∧
      (validateRequiredFiles ["doc"] (@emptyStream MultipartFileStream)).terminal =
        .error (.missingFiles missing) ∧
      ∀ q, q ∈ missing ↔
        (q ∈ ["doc"] ∧ ∀ st ∈ (@emptyStream MultipartFileStream).items, st.fieldname ≠ q)) := by
  constructor
  · exact (c3_required_validation.2.2.1 ["name"]
      ⟨[⟨"name", "John", "", "", false, none, none⟩], .complete⟩ rfl).1 (by decide)
  · exact (c3_required_validation.2.2.2.1 ["doc"]
      (@emptyStream MultipartFileStream) rfl).2 (by decide)

/-- `next` never changes the errors a subscriber has observed. -/
theorem errorsOf_nextEv {α : Type} (s : SubjectState α) (v : α) :
    (s.nextEv v).errorsOf = s.errorsOf := by
  unfold SubjectState.nextEv SubjectState.errorsOf
  split
  · rfl
  · simp

/-- `next` never changes the stopped flag. -/
theorem stopped_nextEv {α : Type} (s : SubjectState α) (v : α) :
    (s.nextEv v).stopped = s.stopped := by
  unfold SubjectState.nextEv
  split <;> rfl

/-- After `error` the subject is stopped. -/
theorem stopped_errorEv {α : Type} (s : SubjectState α) (e : MError) :
    (s.errorEv e).stopped = true := by
  unfold SubjectState.errorEv
  split <;> simp_all

/-- `error` appends the error when the subject was live, and is a no-op
otherwise. -/
theorem errorsOf_errorEv {α : Type} (s : SubjectState α) (e : MError) :
    (s.errorEv e).errorsOf = if s.stopped then s.errorsOf else s.errorsOf ++ [e] := by
  unfold SubjectState.errorEv SubjectState.errorsOf
  split <;> simp_all

/-- `error` delivers no value. -/
theorem nextsOf_errorEv {α : Type} (s : SubjectState α) (e : MError) :
    (s.errorEv e).nextsOf = s.nextsOf := by
  unfold SubjectState.errorEv SubjectState.nextsOf
  split
  · rfl
  · simp

/-- `next` appends the value when the subject is live. -/
theorem nextsOf_nextEv {α : Type} (s : SubjectState α) (v : α) :
    (s.nextEv v).nextsOf = if s.stopped then s.nextsOf else s.nextsOf ++ [v] := by
  unfold SubjectState.nextEv SubjectState.nextsOf
  split <;> simp_all

/-- After `complete` the subject is stopped. -/
theorem stopped_completeEv {α : Type} (s : SubjectState α) :
    s.completeEv.stopped = true := by
  unfold SubjectState.completeEv
  split <;> simp_all

/-- `complete` never changes the errors observed. -/
theorem errorsOf_completeEv {α : Type} (s : SubjectState α) :
    s.completeEv.errorsOf = s.errorsOf := by
  unfold SubjectState.completeEv SubjectState.errorsOf
  split
  · rfl
  · simp

/-- The decoder's fail closure preserves the channel-coupling
invariant. -/
theorem failPath_inv (e : MError) (s : ParserState) (h : ParserInv s) :
    ParserInv (failPath e s) := by
  obtain ⟨h1, h2, h3, h4, h5, h6⟩ := h
  unfold failPath
  split
  · refine ⟨?_, ?_, ?_, ?_, ?_, ?_⟩
    · rw [stopped_errorEv, stopped_errorEv]
    · rw [stopped_errorEv, stopped_errorEv]
    · rw [errorsOf_errorEv, errorsOf_errorEv, h1, h3]
    · rw [errorsOf_errorEv, errorsOf_errorEv, h2, h4]
    · intro hfalse
      rw [stopped_errorEv] at hfalse
      exact absurd hfalse (by simp)
    · rw [errorsOf_errorEv]
      cases hst : s.files.stopped with
      | true => simpa [hst] using h6
      | false =>
        rw [if_neg (by simp [hst])]
        rw [h5 hst]
        simp
  · exact ⟨h1, h2, h3, h4, h5, h6⟩

/-- Delivering a file on the file channel preserves the invariant. -/
theorem inv_filesNext (s : ParserState) (v : MultipartFileStream) (h : ParserInv s) :
    ParserInv { s with files := s.files.nextEv v } := by
  obtain ⟨h1, h2, h3, h4, h5, h6⟩ := h
  refine ⟨?_, h2, ?_, h4, ?_, ?_⟩
  · rw [stopped_nextEv]; exact h1
  · rw [errorsOf_nextEv]; exact h3
  · intro hfalse
    rw [stopped_nextEv] at hfalse
    rw [errorsOf_nextEv]
    exact h5 hfalse
  · rw [errorsOf_nextEv]; exact h6

/-- Delivering a field on the field channel preserves the invariant. -/
theorem inv_fieldsNext (s : ParserState) (v : MultipartField) (h : ParserInv s) :
    ParserInv { s with fields := s.fields.nextEv v } := by
  obtain ⟨h1, h2, h3, h4, h5, h6⟩ := h
  refine ⟨?_, ?_, ?_, ?_, h5, h6⟩
  · rw [stopped_nextEv]; exact h1
  · rw [stopped_nextEv]; exact h2
  · rw [errorsOf_nextEv]; exact h3
  · rw [errorsOf_nextEv]; exact h4

/-- Completing all three sinks (the `finish` handler) preserves the
invariant. -/
theorem inv_completeAll (s : ParserState) (h : ParserInv s) :
    ParserInv { s with files := s.files.completeEv,
                       fields := s.fields.completeEv,
                       out := s.out.completeEv } := by
  obtain ⟨h1, h2, h3, h4, h5, h6⟩ := h
  refine ⟨?_, ?_, ?_, ?_, ?_, ?_⟩
  · rw [stopped_completeEv, stopped_completeEv]
  · rw [stopped_completeEv, stopped_completeEv]
  · rw [errorsOf_completeEv, errorsOf_completeEv]; exact h3
  · rw [errorsOf_completeEv, errorsOf_completeEv]; exact h4
  · intro hfalse
    rw [stopped_completeEv] at hfalse
    exact absurd hfalse (by simp)
  · rw [errorsOf_completeEv]; exact h6

/-- Flipping the bubble gate preserves the invariant. -/
theorem inv_setGate (s : ParserState) (b : Bool) (h : ParserInv s) :
    ParserInv { s with shouldEmitErrors := b } := h

/-- Every decoder event preserves the channel-coupling invariant. -/
theorem parserStep_inv (opts : MultipartOptions) (s : ParserState) (ev : ParserEvent)
    (h : ParserInv s) : ParserInv (parserStep opts s ev) := by
  cases ev with
  | partsLimitReached => exact failPath_inv _ _ h
  | filesLimitReached => exact failPath_inv _ _ h
  | fieldsLimitReached => exact failPath_inv _ _ h
  | busboyFailed msg => exact failPath_inv _ _ h
  | requestFailed msg => exact failPath_inv _ _ h
  | upstreamDone => exact inv_setGate s _ h
  | fileStarted fieldname filename encoding mimetype => exact inv_filesNext s _ h
  | fileEnd fieldname truncated =>
    cases truncated with
    | true => exact failPath_inv _ _ h
    | false => exact h
  | fieldArrived fieldname value nameTruncated valueTruncated encoding mimetype =>
    show ParserInv (if nameTruncated || valueTruncated then _ else _)
    split
    · exact failPath_inv _ _ h
    · exact inv_fieldsNext s _ h
  | finish => exact inv_completeAll s h

/-- The invariant holds in the post-subscription state. -/
theorem initial_inv : ParserInv initialParserState := by
  refine ⟨rfl, rfl, rfl, rfl, fun _ => rfl, by decide⟩

/-- The invariant holds after any run of the decoder. -/
theorem runParser_inv (opts : MultipartOptions) (events : List ParserEvent) :
    ParserInv (runParser opts events) := by
  unfold runParser
  suffices h : ∀ s, ParserInv s → ParserInv (events.foldl (parserStep opts) s) by
    exact h initialParserState initial_inv
  induction events with
  | nil => intro s hs; exact hs
  | cons e es ih =>
    intro s hs
    exact ih _ (parserStep_inv opts s e hs)

/-- C2: for every run of the decoder over any event sequence and any
options, the file channel, the field channel and the decoder's own stream
observe exactly the same errors (so each limit/truncation/tokenizer error
reaches all three or none of them), and no channel observes an error more
than once. -/
theorem c2_error_fanout_atomic (opts : MultipartOptions) (events : List ParserEvent) :
    (runParser opts events).files.errorsOf = (runParser opts events).fields.errorsOf ∧
    (runParser opts events).fields.errorsOf = (runParser opts events).out.errorsOf ∧
    (runParser opts events).files.errorsOf.length ≤ 1 := by
  have h := runParser_inv opts events
  exact ⟨h.2.2.1, h.2.2.2.1, h.2.2.2.2.2⟩

/-- The fail path never delivers a value on the field channel. -/
theorem failPath_fields_nextsOf (e : MError) (s : ParserState) :
    (failPath e s).fields.nextsOf = s.fields.nextsOf := by
  unfold failPath
  split
  · exact nextsOf_errorEv s.fields e
  · rfl

/-- C7: on a tokenizer field event whose name or value was truncated, the
decoder invokes exactly the fail path with a `TruncatedFieldError` for
that field and publishes no field value; when neither truncation flag is
set, it wraps the field and publishes it immediately on the (live) field
channel, touching nothing else. -/
theorem c7_truncated_field_not_published (opts : MultipartOptions) (s : ParserState)
    (fieldname value encoding mimetype : String) (nameTruncated valueTruncated : Bool) :
    ((nameTruncated || valueTruncated) = true →
      parserStep opts s
          (.fieldArrived fieldname value nameTruncated valueTruncated encoding mimetype) =
        failPath (.truncatedField fieldname) s ∧
      (parserStep opts s
          (.fieldArrived fieldname value nameTruncated valueTruncated encoding
            mimetype)).fields.nextsOf = s.fields.nextsOf) ∧
    ((nameTruncated || valueTruncated) = false →
      parserStep opts s
          (.fieldArrived fieldname value nameTruncated valueTruncated encoding mimetype) =
        { s with fields :=
            (s.fields.nextEv ⟨fieldname, value, mimetype, encoding, false, none, none⟩) } ∧
      (s.fields.stopped = false →
        (parserStep opts s
            (.fieldArrived fieldname value nameTruncated valueTruncated encoding
              mimetype)).fields.nextsOf =
          s.fields.nextsOf ++ [⟨fieldname, value, mimetype, encoding, false, none, none⟩])) := by
  constructor
  · intro h
    have hstep : parserStep opts s
        (.fieldArrived fieldname value nameTruncated valueTruncated encoding mimetype) =
        failPath (.truncatedField fieldname) s := by
      show (if (nameTruncated || valueTruncated) = true then _ else _) = _
      rw [if_pos h]
    refine ⟨hstep, ?_⟩
    rw [hstep]
    exact failPath_fields_nextsOf _ s
  · intro h
    have hstep : parserStep opts s
        (.fieldArrived fieldname value nameTruncated valueTruncated encoding mimetype) =
        { s with fields :=
            (s.fields.nextEv ⟨fieldname, value, mimetype, encoding, false, none, none⟩) } := by
      show (if (nameTruncated || valueTruncated) = true then _ else _) = _
      rw [if_neg (by simp [h])]
    refine ⟨hstep, ?_⟩
    intro hlive
    rw [hstep]
    show (s.fields.nextEv _).nextsOf = _
    rw [nextsOf_nextEv, if_neg (by simp [hlive])]

/-- Witness for C7: a value-truncated field is not published and goes
through the fail path; an untruncated field is published immediately. -/
theorem c7_truncated_field_not_published_witness :
    (parserStep ⟨none, none⟩ initialParserState
        (.fieldArrived "bio" "trunc" false true "7bit" "text/plain") =
      failPath (.truncatedField "bio") initialParserState) ∧
    (parserStep ⟨none, none⟩ initialParserState
        (.fieldArrived "name" "John" false false "7bit" "text/plain")).fields.nextsOf =
      [⟨"name", "John", "text/plain", "7bit", false, none, none⟩] := by
  constructor
  · exact ((c7_truncated_field_not_published ⟨none, none⟩ initialParserState
      "bio" "trunc" "7bit" "text/plain" false true).1 (by decide)).1
  · have h := ((c7_truncated_field_not_published ⟨none, none⟩ initialParserState
      "name" "John" "7bit" "text/plain" false false).2 (by decide)).2 rfl
    rw [h]
    decide

/-- C1 (bubble-errors gate, evaluated at the failing inputs): after
`upstreamExecutionDone$` completes, the code publishes the next fail-path
error to all three sinks when `bubbleErrors` is `false` or unset, and
swallows it when `bubbleErrors` is `true` — the exact inverse of the
claim (`shouldEmitErrors = options?.bubbleErrors !== true`); before the
completion signal the error is always published, as the claim says. -/
theorem c1_bubble_errors_gate_inverted :
    ((runParser ⟨none, some true⟩ [.upstreamDone, .partsLimitReached]).files.errorsOf = [] ∧
     (runParser ⟨none, some true⟩ [.upstreamDone, .partsLimitReached]).fields.errorsOf = [] ∧
     (runParser ⟨none, some true⟩ [.upstreamDone, .partsLimitReached]).out.errorsOf = []) ∧
    ((runParser ⟨none, some false⟩ [.upstreamDone, .partsLimitReached]).files.errorsOf =
        [.partsLimit none] ∧
     (runParser ⟨none, some false⟩ [.upstreamDone, .partsLimitReached]).fields.errorsOf =
        [.partsLimit none] ∧
     (runParser ⟨none, some false⟩ [.upstreamDone, .partsLimitReached]).out.errorsOf =
        [.partsLimit none]) ∧
    (runParser ⟨none, none⟩ [.upstreamDone, .partsLimitReached]).out.errorsOf =
        [.partsLimit none] ∧
    ((runParser ⟨none, some true⟩ [.partsLimitReached]).out.errorsOf = [.partsLimit none] ∧
     (runParser ⟨none, none⟩ [.partsLimitReached]).out.errorsOf = [.partsLimit none]) := by
  decide

end MultipartForm
